import Mathlib

/-!
# Verification of the dove URL-shortener core

A shallow embedding of the short-code allocation and resolution subsystem of
the `sp3dr4/dove` repository: the domain entity (`internal/domain`), the
in-memory repository backend (`internal/infrastructure/memory`), the no-op
cache (`internal/infrastructure/cache/noop.go`), a model of the Redis cache
(`internal/infrastructure/redis`), the sqlite repository's `Create`
(`internal/infrastructure/sqlite`), the cache-aware application service
(`internal/application`, current iteration) and the cacheless service
(`internal/application/service.go`, earlier iteration).

Go's `time.Time` values are modelled as abstract `Nat` ticks supplied
explicitly wherever the code reads the clock (`time.Now()`); Go's `int` /
`int64` counters and identifiers are modelled as `Nat` (they start at zero
and are only ever incremented in the embedded code, so the wrap-around of
the 64-bit machine representation is never reached in any behaviour the
claims quantify over).
-/

namespace Dove

/-- The domain entity `domain.URL` (current iteration, with `UpdatedAt`). -/
structure URL where
  id : Nat
  shortCode : String
  originalURL : String
  clicks : Nat
  createdAt : Nat
  updatedAt : Nat
  deriving Repr, DecidableEq

/-- The domain error values of `internal/domain` plus the service-level
validation failure (the error returned by `validate.Struct`). -/
inductive Err where
  | urlNotFound
  | shortCodeExists
  | invalidURL
  | invalidShortCode
  | validationFailed
  deriving Repr, DecidableEq

/-- `domain.NewURL` (current iteration): rejects an empty short code or an
empty URL, otherwise builds a record with zero clicks and both timestamps set
to the current time. -/
def NewURL (shortCode originalURL : String) (now : Nat) : Except Err URL :=
  if shortCode = "" then .error .invalidShortCode
  else if originalURL = "" then .error .invalidURL
  else .ok { id := 0, shortCode := shortCode, originalURL := originalURL,
             clicks := 0, createdAt := now, updatedAt := now }

/-! ## In-memory repository backend (`memory.URLRepository`, current iteration)

The Go backend is a mutex-guarded `map[string]*domain.URL`; each exported
method holds the lock for the whole call, so the methods are embedded as
sequential functions on the map state. The map is modelled as an association
list keyed by short code. -/

/-- The state of the in-memory backend: the contents of `r.urls`. -/
abbrev Mem := List (String × URL)

/-- Keyed lookup in the backend map (`r.urls[shortCode]`). -/
def memLookup : Mem → String → Option URL
  | [], _ => none
  | (k, v) :: rest, code => if k = code then some v else memLookup rest code

/-- `memory.URLRepository.Create`: under the lock, fails with
`ErrShortCodeExists` when the short code is already present, otherwise stores
a copy of the record carrying the generated identifier `len(r.urls) + 1`. -/
def Mem.create (r : Mem) (u : URL) : Except Err URL × Mem :=
  match memLookup r u.shortCode with
  | some _ => (.error .shortCodeExists, r)
  | none =>
    let created : URL := { u with id := r.length + 1 }
    (.ok created, r ++ [(u.shortCode, created)])

/-- `memory.URLRepository.FindByShortCode`: read-locked lookup, failing with
`ErrURLNotFound` when absent. It does not modify the map. -/
def Mem.findByShortCode (r : Mem) (code : String) : Except Err URL :=
  match memLookup r code with
  | none => .error .urlNotFound
  | some u => .ok u

/-- Rewrite the entry stored under `code` (the in-place mutation of the
record the map points to). -/
def memUpdate : Mem → String → URL → Mem
  | [], _, _ => []
  | (k, v) :: rest, code, u =>
    if k = code then (k, u) :: memUpdate rest code u
    else (k, v) :: memUpdate rest code u

/-- `memory.URLRepository.IncrementClicks`: under the lock, fails with
`ErrURLNotFound` when the code is absent, otherwise bumps `Clicks` by one,
stamps `UpdatedAt` with the current time, and returns the updated record. -/
def Mem.incrementClicks (r : Mem) (code : String) (now : Nat) :
    Except Err URL × Mem :=
  match memLookup r code with
  | none => (.error .urlNotFound, r)
  | some u =>
    let u' : URL := { u with clicks := u.clicks + 1, updatedAt := now }
    (.ok u', memUpdate r code u')

/-- `memory.URLRepository.Exists`: read-locked membership probe; never
errors. -/
def Mem.existsShortCode (r : Mem) (code : String) : Bool :=
  (memLookup r code).isSome

/-! ## Input validation

The service validates `CreateURLRequest` with the external
`go-playground/validator` library against the struct tags
`url:"required,url"` and `customAlias:"omitempty,alphanum,min=3,max=20"`.
The library is not part of this repository, so its check is modelled from
the spec. -/

/-- The request body of the creation endpoint (`application.CreateURLRequest`). -/
structure CreateURLRequest where
  url : String
  customAlias : String
  deriving Repr, DecidableEq

/-- The character class `[a-zA-Z0-9]` used both by the `alphanum` validator
tag and by the short-code generation alphabet. -/
def isAlphanumChar (c : Char) : Bool :=
  ('a' ≤ c && c ≤ 'z') || ('A' ≤ c && c ≤ 'Z') || ('0' ≤ c && c ≤ '9')

/-- Scans a character list for the first occurrence of the separator `://`
and returns what follows it. -/
def schemeSplit : List Char → Option (List Char)
  | ':' :: '/' :: '/' :: rest => some rest
  | _ :: rest => schemeSplit rest
  | [] => none

/-- Modelled from the spec: the `required,url` validation of the external
`go-playground/validator` library — the URL field must be non-empty and
well-formed, with a non-empty scheme, the separator `://` and a non-empty
remainder. -/
def isWellFormedURL (u : String) : Bool :=
  match u.toList with
  | [] => false
  | c :: rest =>
    c != ':' &&
      (match schemeSplit (c :: rest) with
       | some host => !host.isEmpty
       | none => false)

/-- Modelled from the spec: the `omitempty,alphanum,min=3,max=20` validation
of the custom-alias field — alphanumeric, length between 3 and 20. -/
def isValidCustomCode (a : String) : Bool :=
  decide (3 ≤ a.toList.length) && decide (a.toList.length ≤ 20) &&
    a.toList.all isAlphanumChar

/-- Modelled from the spec: `s.validate.Struct(req)` — the URL is required
and well-formed, and the custom alias, when supplied, is alphanumeric of
length 3–20. -/
def validateCreateReq (req : CreateURLRequest) : Bool :=
  isWellFormedURL req.url &&
    (req.customAlias == "" || isValidCustomCode req.customAlias)

/-! ## Short-code generation -/

/-- The generation alphabet of `generateShortCode`. -/
def charset : List Char :=
  "abcdefghijklmnopqrstuvwxyzABCDEFGHIJKLMNOPQRSTUVWXYZ0123456789".toList

/-- `application.generateShortCode`: builds a 6-character string, each
character drawn from `charset` at index `time.Now().UnixNano() % len(charset)`.
The clock reading of each loop iteration is supplied as `ts i` (the Go code
re-reads the clock in every iteration; `UnixNano` is non-negative at any
realistic clock value, so it is modelled as `Nat`). -/
def generateShortCode (ts : Fin 6 → Nat) : String :=
  String.mk ((List.finRange 6).map fun i =>
    charset.get ⟨ts i % charset.length, Nat.mod_lt _ (by decide)⟩)

/-! ## Cache abstraction

`domain.Cache` with an explicit state type `σ`. `get` returns the cached
record (or `none` for a miss) together with an error flag — Go's `Get`
returns the pair `(*domain.URL, error)`, and the service only inspects
whether the record is non-nil and logs the error. `set` returns an error
flag. The Boolean flags model whether the Go call returned a non-nil
error. -/
structure CacheModel (σ : Type) where
  get : σ → String → (Option URL × Bool) × σ
  set : σ → URL → Nat → Bool × σ

/-- `cache.NoOpCache`: `Get` always misses with no error, `Set` discards
its argument and reports no error. -/
def noopCache : CacheModel Unit where
  get s _ := ((none, false), s)
  set s _ _ := (false, s)

/-- A cache whose every call fails with an error (a model of a Redis cache
with a lost connection: `Get` returns `(nil, err)`, `Set` returns `err`). -/
def failingCache : CacheModel Unit where
  get s _ := ((none, true), s)
  set s _ _ := (true, s)

/-- The key namespacing of `redis.RedisCache.buildKey`. -/
def cacheKey (code : String) : String := "url:" ++ code

/-- Lookup in the Redis key-value model. -/
def kvLookup : List (String × URL) → String → Option URL
  | [], _ => none
  | (k, v) :: rest, key => if k = key then some v else kvLookup rest key

/-- `redis.RedisCache` modelled as an in-process key-value map: `Get` returns
the record stored under `"url:" ++ code` (a miss is `(nil, nil)`), `Set`
overwrites that key. Serialization is modelled as lossless and, since the
claims only relate operations with no time passing between them, TTL expiry
does not fire inside the model. -/
def redisCache : CacheModel (List (String × URL)) where
  get s code := ((kvLookup s (cacheKey code), false), s)
  set s u _ := (false, (cacheKey u.shortCode, u) :: s)

/-! ## Cache-aware application service (current iteration)

`application.URLService` holds the repository, the cache and the configured
TTL. The repository dependency is instantiated with the in-memory backend
model `Mem`; the cache dependency stays abstract (`CacheModel σ`). Each
service method takes and returns the pair of backend states. -/

/-- The response view `application.URLResponse` (current iteration). -/
structure URLResponse where
  id : Nat
  shortURL : String
  shortCode : String
  originalURL : String
  clicks : Nat
  createdAt : Nat
  updatedAt : Nat
  deriving Repr, DecidableEq

/-- `URLService.CreateShortURL`: validate, resolve the working code (the
custom alias, or a generated code when the alias is empty), fast-path
existence probe, construct the record, delegate to the repository `Create`,
best-effort cache `Set` (its error is only logged), and build the response
view with `baseURL + "/" + shortCode`. -/
def createShortURL {σ : Type} (c : CacheModel σ) (ttl : Nat) (r : Mem) (cs : σ)
    (req : CreateURLRequest) (baseURL : String) (ts : Fin 6 → Nat) (now : Nat) :
    Except Err URLResponse × Mem × σ :=
  if validateCreateReq req = false then (.error .validationFailed, r, cs)
  else
    let shortCode := if req.customAlias == "" then generateShortCode ts
                     else req.customAlias
    -- s.repo.Exists: the in-memory backend's probe never errors.
    if Mem.existsShortCode r shortCode then (.error .shortCodeExists, r, cs)
    else
      match NewURL shortCode req.url now with
      | .error e => (.error e, r, cs)
      | .ok url =>
        match Mem.create r url with
        | (.error e, r') => (.error e, r', cs)
        | (.ok created, r') =>
          let setRes := c.set cs created ttl
          (.ok { id := created.id
                 shortURL := baseURL ++ "/" ++ shortCode
                 shortCode := shortCode
                 originalURL := created.originalURL
                 clicks := created.clicks
                 createdAt := created.createdAt
                 updatedAt := created.updatedAt }, r', setRes.2)

/-- `URLService.GetURL` (read-through): query the cache first; the cache
error, if any, is only logged. On a hit return the cached record; on a miss
read the repository, best-effort repopulate the cache, and return the
record. -/
def getURL {σ : Type} (c : CacheModel σ) (ttl : Nat) (r : Mem) (cs : σ)
    (code : String) : Except Err URL × Mem × σ :=
  let getRes := c.get cs code
  match getRes.1.1 with
  | some cachedURL => (.ok cachedURL, r, getRes.2)
  | none =>
    match Mem.findByShortCode r code with
    | .error e => (.error e, r, getRes.2)
    | .ok url =>
      let setRes := c.set getRes.2 url ttl
      (.ok url, r, setRes.2)

/-- `URLService.IncrementClicks` (update-through): delegate to the
repository's atomic increment, then best-effort write the post-increment
record into the cache (its error is only logged), and return the updated
record. -/
def incrementClicks {σ : Type} (c : CacheModel σ) (ttl : Nat) (r : Mem)
    (cs : σ) (code : String) (now : Nat) : Except Err URL × Mem × σ :=
  match Mem.incrementClicks r code now with
  | (.error e, r') => (.error e, r', cs)
  | (.ok url, r') =>
    let setRes := c.set cs url ttl
    (.ok url, r', setRes.2)

/-- Iterated sequential calls to the service's `IncrementClicks` on one
short code, one call per clock reading in `nows`, threading both backend
states through. -/
def iterIncrementClicks {σ : Type} (c : CacheModel σ) (ttl : Nat)
    (code : String) : Mem × σ → List Nat → Mem × σ
  | s, [] => s
  | (r, cs), now :: rest =>
    let out := incrementClicks c ttl r cs code now
    iterIncrementClicks c ttl code (out.2.1, out.2.2) rest

/-! ## Cacheless service (`internal/application/service.go`, earlier iteration)

The earlier service iteration has no cache collaborator and calls the
repository directly. Both Go services receive the repository as an injected
dependency, so for the substitutability comparison the cacheless service is
instantiated with the same in-memory backend model `Mem`. -/

/-- The response view of the cacheless iteration (`service.go`): only the
short URL, short code, original URL and creation time. -/
structure CachelessURLResponse where
  shortURL : String
  shortCode : String
  originalURL : String
  createdAt : Nat
  deriving Repr, DecidableEq

/-- The cacheless view of a full response: the fields the earlier iteration's
`URLResponse` exposes. -/
def URLResponse.toCacheless (resp : URLResponse) : CachelessURLResponse :=
  { shortURL := resp.shortURL, shortCode := resp.shortCode,
    originalURL := resp.originalURL, createdAt := resp.createdAt }

/-- `CreateShortURL` of the cacheless iteration: validate, resolve the
working code, existence probe, construct, `Create`, and answer with the view
built from the constructed record — with no cache interaction anywhere. -/
def cachelessCreateShortURL (r : Mem) (req : CreateURLRequest)
    (baseURL : String) (ts : Fin 6 → Nat) (now : Nat) :
    Except Err CachelessURLResponse × Mem :=
  if validateCreateReq req = false then (.error .validationFailed, r)
  else
    let shortCode := if req.customAlias == "" then generateShortCode ts
                     else req.customAlias
    if Mem.existsShortCode r shortCode then (.error .shortCodeExists, r)
    else
      match NewURL shortCode req.url now with
      | .error e => (.error e, r)
      | .ok url =>
        match Mem.create r url with
        | (.error e, r') => (.error e, r')
        | (.ok created, r') =>
          (.ok { shortURL := baseURL ++ "/" ++ shortCode
                 shortCode := shortCode
                 originalURL := created.originalURL
                 createdAt := created.createdAt }, r')

/-- `GetURL` of the cacheless iteration: a direct delegation to the
repository's `FindByShortCode` (which leaves the store unchanged). -/
def cachelessGetURL (r : Mem) (code : String) : Except Err URL :=
  Mem.findByShortCode r code

/-- `IncrementClicks` of the cacheless iteration: a direct delegation to the
repository's increment; only the error is surfaced. -/
def cachelessIncrementClicks (r : Mem) (code : String) (now : Nat) :
    Option Err × Mem :=
  match Mem.incrementClicks r code now with
  | (.error e, r') => (some e, r')
  | (.ok _, r') => (none, r')

/-! ## sqlite repository `Create`

`sqlite.URLRepository.Create` issues one `INSERT` through the database
driver and inspects only whether the driver returned an error. The driver
outcome is supplied as an oracle: `.ok id` models a successful insert
returning the last-insert identifier, `.error cause` a failed insert with
its cause. The schema (`migrations/sqlite/001_create_urls_table.up.sql`)
puts a UNIQUE constraint on `short_code`, so an insert of a duplicate code
fails with a unique violation; an insert can also fail for unrelated reasons
such as a lost connection. -/
inductive SqlExecError where
  | uniqueViolation
  | connectionError
  deriving Repr, DecidableEq

/-- `sqlite.URLRepository.Create`: on any driver error whatsoever the method
returns `domain.ErrShortCodeExists`; on success it returns the record copy
carrying the last-insert identifier. -/
def sqliteCreate (dbExec : Except SqlExecError Nat) (u : URL) :
    Except Err URL :=
  match dbExec with
  | .error _ => .error .shortCodeExists
  | .ok id => .ok { u with id := id }

/-- The error component of a repository increment outcome — the only part of
it the cacheless iteration's `IncrementClicks` surfaces. -/
def errOf : Except Err URL → Option Err
  | .error e => some e
  | .ok _ => none

/-- A concrete record used by closed witness statements. -/
def sampleURL : URL :=
  { id := 1, shortCode := "abc123", originalURL := "https://example.com",
    clicks := 0, createdAt := 0, updatedAt := 0 }

/-- A second concrete record used by closed witness statements. -/
def sampleURL2 : URL :=
  { id := 0, shortCode := "new123", originalURL := "https://other.org",
    clicks := 0, createdAt := 3, updatedAt := 3 }

end Dove

/-! ## Lemmas about the in-memory map -/

namespace Dove

theorem memLookup_append_self (r : Mem) (k : String) (u : URL)
    (h : memLookup r k = none) : memLookup (r ++ [(k, u)]) k = some u := by
  induction r with
  | nil => simp [memLookup]
  | cons p rest ih =>
    obtain ⟨k', v⟩ := p
    rw [List.cons_append]
    by_cases hk : k' = k
    · rw [memLookup, if_pos hk] at h
      exact absurd h (by simp)
    · rw [memLookup, if_neg hk] at h
      rw [memLookup, if_neg hk]
      exact ih h

theorem memLookup_append_left (r l : Mem) (code : String) (v : URL)
    (h : memLookup r code = some v) : memLookup (r ++ l) code = some v := by
  induction r with
  | nil => simp [memLookup] at h
  | cons p rest ih =>
    obtain ⟨k, w⟩ := p
    rw [List.cons_append]
    by_cases hk : k = code
    · rw [memLookup, if_pos hk] at h
      rw [memLookup, if_pos hk]
      exact h
    · rw [memLookup, if_neg hk] at h
      rw [memLookup, if_neg hk]
      exact ih h

theorem memLookup_memUpdate_self (r : Mem) (code : String) (u u' : URL)
    (h : memLookup r code = some u) :
    memLookup (memUpdate r code u') code = some u' := by
  induction r with
  | nil => simp [memLookup] at h
  | cons p rest ih =>
    obtain ⟨k, v⟩ := p
    by_cases hk : k = code
    · rw [memUpdate, if_pos hk, memLookup, if_pos hk]
    · rw [memLookup, if_neg hk] at h
      rw [memUpdate, if_neg hk, memLookup, if_neg hk]
      exact ih h

theorem memLookup_memUpdate_ne (r : Mem) (code code' : String) (u' : URL)
    (h : code' ≠ code) :
    memLookup (memUpdate r code u') code' = memLookup r code' := by
  induction r with
  | nil => simp [memUpdate]
  | cons p rest ih =>
    obtain ⟨k, v⟩ := p
    by_cases hk : k = code
    · subst hk
      rw [memUpdate, if_pos rfl, memLookup, memLookup, if_neg (Ne.symm h),
        if_neg (Ne.symm h)]
      exact ih
    · rw [memUpdate, if_neg hk, memLookup, memLookup]
      by_cases hk' : k = code'
      · rw [if_pos hk', if_pos hk']
      · rw [if_neg hk', if_neg hk']
        exact ih

theorem mem_create_error_state (r : Mem) (u : URL) (e : Err) (r' : Mem)
    (h : Mem.create r u = (.error e, r')) : r' = r := by
  unfold Mem.create at h
  split at h
  · exact (Prod.mk.injEq _ _ _ _ ▸ h).2.symm
  · simp at h

/-! ## Lemmas about validation and generation -/

theorem wellFormedURL_ne_empty (u : String) (h : isWellFormedURL u = true) :
    u ≠ "" := by
  intro he
  rw [he] at h
  exact absurd h (by decide)

theorem validCustomCode_ne_empty (a : String) (h : isValidCustomCode a = true) :
    a ≠ "" := by
  intro he
  rw [he] at h
  exact absurd h (by decide)

theorem generateShortCode_toList (ts : Fin 6 → Nat) :
    (generateShortCode ts).toList =
      (List.finRange 6).map (fun i =>
        charset.get ⟨ts i % charset.length, Nat.mod_lt _ (by decide)⟩) := rfl

theorem generateShortCode_len (ts : Fin 6 → Nat) :
    (generateShortCode ts).toList.length = 6 := by
  rw [generateShortCode_toList]
  simp

theorem generateShortCode_alphanum (ts : Fin 6 → Nat) :
    (generateShortCode ts).toList.all isAlphanumChar = true := by
  rw [generateShortCode_toList, List.all_eq_true]
  intro c hc
  simp only [List.mem_map] at hc
  obtain ⟨i, -, rfl⟩ := hc
  exact List.all_eq_true.mp (by decide) _ (List.get_mem charset _ _)

/-! ## Characterizations of the service operations -/

/-- Exact shape of a successful creation: with the validation passing, the
working code `w` fresh and the constructed fields non-empty, `CreateShortURL`
returns the response view of the freshly created record, the repository gains
exactly that record, and the cache receives one `Set` of it. -/
theorem createShortURL_spec {σ : Type} (c : CacheModel σ) (ttl : Nat) (r : Mem)
    (cs : σ) (req : CreateURLRequest) (baseURL : String) (ts : Fin 6 → Nat)
    (now : Nat) (w : String)
    (hv : validateCreateReq req = true)
    (hw : (if req.customAlias == "" then generateShortCode ts
           else req.customAlias) = w)
    (hmem : memLookup r w = none) (hwne : w ≠ "") (hurl : req.url ≠ "") :
    createShortURL c ttl r cs req baseURL ts now =
      (.ok { id := r.length + 1, shortURL := baseURL ++ "/" ++ w, shortCode := w,
             originalURL := req.url, clicks := 0, createdAt := now,
             updatedAt := now },
       r ++ [(w, { id := r.length + 1, shortCode := w, originalURL := req.url,
                   clicks := 0, createdAt := now, updatedAt := now })],
       (c.set cs { id := r.length + 1, shortCode := w, originalURL := req.url,
                   clicks := 0, createdAt := now, updatedAt := now } ttl).2) := by
  simp only [createShortURL, hv, hw, Mem.existsShortCode, hmem, Option.isSome_none,
    NewURL, if_neg hwne, if_neg hurl, Mem.create, Bool.false_eq_true, if_false]
  simp

/-- Exact shape of a successful increment: when the code is present, the
service returns the record with the click count bumped by one and the
last-modified stamp set to `now`, stores it back, and writes it to the
cache. -/
theorem incrementClicks_ok {σ : Type} (c : CacheModel σ) (ttl : Nat) (r : Mem)
    (cs : σ) (code : String) (now : Nat) (u : URL)
    (h : memLookup r code = some u) :
    incrementClicks c ttl r cs code now =
      (.ok { u with clicks := u.clicks + 1, updatedAt := now },
       memUpdate r code { u with clicks := u.clicks + 1, updatedAt := now },
       (c.set cs { u with clicks := u.clicks + 1, updatedAt := now } ttl).2) := by
  simp only [incrementClicks, Mem.incrementClicks, h]

/-- After any number of sequential `IncrementClicks` calls on a present code,
the stored record's click count has grown by exactly the number of calls and
the immutable fields are untouched. -/
theorem iterIncrementClicks_lookup {σ : Type} (c : CacheModel σ) (ttl : Nat)
    (code : String) :
    ∀ (nows : List Nat) (r : Mem) (cs : σ) (u : URL),
      memLookup r code = some u →
      ∃ u', memLookup (iterIncrementClicks c ttl code (r, cs) nows).1 code
              = some u' ∧
        u'.clicks = u.clicks + nows.length ∧
        u'.shortCode = u.shortCode ∧ u'.originalURL = u.originalURL ∧
        u'.createdAt = u.createdAt ∧ u'.id = u.id
  | [], r, cs, u, h => ⟨u, h, by simp, rfl, rfl, rfl, rfl⟩
  | now :: rest, r, cs, u, h => by
    rw [iterIncrementClicks, incrementClicks_ok c ttl r cs code now u h]
    dsimp only
    have h1 : memLookup
        (memUpdate r code { u with clicks := u.clicks + 1, updatedAt := now })
        code = some { u with clicks := u.clicks + 1, updatedAt := now } :=
      memLookup_memUpdate_self r code u _ h
    obtain ⟨u', hu', hc, hs, ho, hd, hi⟩ :=
      iterIncrementClicks_lookup c ttl code rest _ _ _ h1
    refine ⟨u', hu', ?_, hs, ho, hd, hi⟩
    simp only [hc, List.length_cons]
    omega

/-- `CreateShortURL`'s result and repository effect do not depend on the
cache at all: any cache instance produces the same outcome as the no-op
cache. -/
theorem createShortURL_cache_independent {σ : Type} (c : CacheModel σ)
    (ttl : Nat) (r : Mem) (cs : σ) (req : CreateURLRequest) (baseURL : String)
    (ts : Fin 6 → Nat) (now : Nat) :
    (createShortURL c ttl r cs req baseURL ts now).1
        = (createShortURL noopCache ttl r () req baseURL ts now).1
    ∧ (createShortURL c ttl r cs req baseURL ts now).2.1
        = (createShortURL noopCache ttl r () req baseURL ts now).2.1 := by
  unfold createShortURL
  refine ⟨?_, ?_⟩ <;>
  · repeat' first | rfl | split | dsimp only

/-- `IncrementClicks`'s result and repository effect do not depend on the
cache. -/
theorem incrementClicks_cache_independent {σ : Type} (c : CacheModel σ)
    (ttl : Nat) (r : Mem) (cs : σ) (code : String) (now : Nat) :
    (incrementClicks c ttl r cs code now).1
        = (incrementClicks noopCache ttl r () code now).1
    ∧ (incrementClicks c ttl r cs code now).2.1
        = (incrementClicks noopCache ttl r () code now).2.1 := by
  unfold incrementClicks
  refine ⟨?_, ?_⟩ <;>
  · split
    · rfl
    · rfl

/-- `GetURL`'s result and repository effect depend on the cache only through
the record component of `Get`: with a cache miss (in particular, with a
failing `Get`, which yields a nil record) the outcome is that of the no-op
cache. -/
theorem getURL_cache_independent {σ : Type} (c : CacheModel σ) (ttl : Nat)
    (r : Mem) (cs : σ) (code : String)
    (hg : (c.get cs code).1.1 = none) :
    (getURL c ttl r cs code).1 = (getURL noopCache ttl r () code).1
    ∧ (getURL c ttl r cs code).2.1 = (getURL noopCache ttl r () code).2.1 := by
  unfold getURL
  dsimp only [noopCache]
  rw [hg]
  dsimp only
  refine ⟨?_, ?_⟩ <;>
  · split
    · rfl
    · rfl

end Dove

/-! ## The claims -/

namespace Dove

/-- C1: for two sequential `CreateShortURL` calls supplying the same valid
custom code (with valid, possibly different URLs) against a store not
containing that code, the first call succeeds with that code, the second
fails with `AlreadyExists` leaving the store unchanged, and the store still
maps the code to the first URL — no silent overwrite. -/
theorem duplicate_custom_code_second_create_fails {σ : Type} (c : CacheModel σ)
    (ttl : Nat) (r : Mem) (cs : σ) (req₁ req₂ : CreateURLRequest)
    (baseURL₁ baseURL₂ : String) (ts₁ ts₂ : Fin 6 → Nat) (now₁ now₂ : Nat)
    (a : String)
    (ha₁ : req₁.customAlias = a) (ha₂ : req₂.customAlias = a)
    (hcode : isValidCustomCode a = true)
    (hurl₁ : isWellFormedURL req₁.url = true)
    (hurl₂ : isWellFormedURL req₂.url = true)
    (hfree : memLookup r a = none) :
    ∃ resp₁ r₁ cs₁,
      createShortURL c ttl r cs req₁ baseURL₁ ts₁ now₁ = (.ok resp₁, r₁, cs₁) ∧
      resp₁.shortCode = a ∧ resp₁.originalURL = req₁.url ∧
      (createShortURL c ttl r₁ cs₁ req₂ baseURL₂ ts₂ now₂).1
          = .error .shortCodeExists ∧
      (createShortURL c ttl r₁ cs₁ req₂ baseURL₂ ts₂ now₂).2.1 = r₁ ∧
      ∃ u, memLookup r₁ a = some u ∧ u.originalURL = req₁.url := by
  have hane : a ≠ "" := validCustomCode_ne_empty a hcode
  have hb : (a == "") = false := beq_eq_false_iff_ne.mpr hane
  have hv₁ : validateCreateReq req₁ = true := by
    simp [validateCreateReq, hurl₁, ha₁, hcode]
  have hw₁ : (if req₁.customAlias == "" then generateShortCode ts₁
              else req₁.customAlias) = a := by
    rw [ha₁]; simp [hb]
  have hspec := createShortURL_spec c ttl r cs req₁ baseURL₁ ts₁ now₁ a hv₁ hw₁
    hfree hane (wellFormedURL_ne_empty _ hurl₁)
  have hv₂ : validateCreateReq req₂ = true := by
    simp [validateCreateReq, hurl₂, ha₂, hcode]
  have hw₂ : (if req₂.customAlias == "" then generateShortCode ts₂
              else req₂.customAlias) = a := by
    rw [ha₂]; simp [hb]
  have hfound := memLookup_append_self r a
    { id := r.length + 1, shortCode := a, originalURL := req₁.url,
      clicks := 0, createdAt := now₁, updatedAt := now₁ } hfree
  have hex : Mem.existsShortCode
      (r ++ [(a, { id := r.length + 1, shortCode := a, originalURL := req₁.url,
                   clicks := 0, createdAt := now₁, updatedAt := now₁ })])
      a = true := by
    unfold Mem.existsShortCode
    rw [hfound]
    rfl
  refine ⟨_, _, _, hspec, rfl, rfl, ?_, ?_, ⟨_, hfound, rfl⟩⟩
  · simp only [createShortURL, hv₂, hw₂, hex]
    simp
  · simp only [createShortURL, hv₂, hw₂, hex]
    simp

theorem duplicate_custom_code_second_create_fails_witness :
    ∃ resp₁ r₁ cs₁,
      createShortURL noopCache 600 [] ()
          { url := "https://example.com", customAlias := "duplicate" }
          "http://sh.rt" (fun _ => 0) 1 = (.ok resp₁, r₁, cs₁) ∧
      resp₁.shortCode = "duplicate" ∧
      resp₁.originalURL = "https://example.com" ∧
      (createShortURL noopCache 600 r₁ cs₁
          { url := "https://other.org", customAlias := "duplicate" }
          "http://sh.rt" (fun _ => 0) 2).1 = .error .shortCodeExists ∧
      (createShortURL noopCache 600 r₁ cs₁
          { url := "https://other.org", customAlias := "duplicate" }
          "http://sh.rt" (fun _ => 0) 2).2.1 = r₁ ∧
      ∃ u, memLookup r₁ "duplicate" = some u ∧
        u.originalURL = "https://example.com" :=
  duplicate_custom_code_second_create_fails noopCache 600 [] ()
    { url := "https://example.com", customAlias := "duplicate" }
    { url := "https://other.org", customAlias := "duplicate" }
    "http://sh.rt" "http://sh.rt" (fun _ => 0) (fun _ => 0) 1 2 "duplicate"
    rfl rfl (by decide) (by decide) (by decide) rfl

/-- C2: for a short code present in the store with click count `c` and any
sequence of `N` sequential `IncrementClicks` calls, `GetURL` afterwards
reports exactly `c + N` clicks; a single increment adds exactly 1 (and the
count never decreases). -/
theorem sequential_increments_add_exactly {σ : Type} (c : CacheModel σ)
    (ttl ttl' : Nat) (r : Mem) (cs : σ) (code : String) (u : URL)
    (nows : List Nat) (now : Nat)
    (h : memLookup r code = some u) :
    (∃ u', (getURL noopCache ttl'
              (iterIncrementClicks c ttl code (r, cs) nows).1 () code).1
            = .ok u' ∧ u'.clicks = u.clicks + nows.length)
    ∧ (incrementClicks c ttl r cs code now).1
        = .ok { u with clicks := u.clicks + 1, updatedAt := now } := by
  constructor
  · obtain ⟨u', hu', hc, -, -, -, -⟩ :=
      iterIncrementClicks_lookup c ttl code nows r cs u h
    refine ⟨u', ?_, hc⟩
    simp only [getURL, noopCache, Mem.findByShortCode, hu']
  · rw [incrementClicks_ok c ttl r cs code now u h]

theorem sequential_increments_add_exactly_witness :
    (∃ u', (getURL noopCache 600
              (iterIncrementClicks noopCache 600 "abc123"
                ([("abc123", sampleURL)], ()) [1, 2, 3]).1 () "abc123").1
            = .ok u' ∧ u'.clicks = sampleURL.clicks + [1, 2, 3].length)
    ∧ (incrementClicks noopCache 600 [("abc123", sampleURL)] () "abc123" 9).1
        = .ok { sampleURL with clicks := sampleURL.clicks + 1, updatedAt := 9 } :=
  sequential_increments_add_exactly noopCache 600 600 [("abc123", sampleURL)]
    () "abc123" sampleURL [1, 2, 3] 9 rfl

/-- C3: a creation request with no custom code that succeeds returns a short
code of length exactly 6 whose characters all come from `[A-Za-z0-9]`. -/
theorem generated_short_code_shape {σ : Type} (c : CacheModel σ) (ttl : Nat)
    (r : Mem) (cs : σ) (req : CreateURLRequest) (baseURL : String)
    (ts : Fin 6 → Nat) (now : Nat) (resp : URLResponse)
    (halias : req.customAlias = "")
    (h : (createShortURL c ttl r cs req baseURL ts now).1 = .ok resp) :
    resp.shortCode.toList.length = 6 ∧
      resp.shortCode.toList.all isAlphanumChar = true := by
  simp only [createShortURL, halias, beq_self_eq_true, if_true] at h
  split at h
  · exact absurd h (by simp)
  · split at h
    · exact absurd h (by simp)
    · split at h
      · exact absurd h (by simp)
      · split at h
        · exact absurd h (by simp)
        · simp only [Except.ok.injEq] at h
          cases h
          exact ⟨generateShortCode_len ts, generateShortCode_alphanum ts⟩

theorem generated_short_code_shape_witness :
    "aaaaaa".toList.length = 6 ∧ "aaaaaa".toList.all isAlphanumChar = true := by
  have h := generated_short_code_shape noopCache 600 [] ()
    { url := "https://example.com", customAlias := "" } "http://sh.rt"
    (fun _ => 0) 0
    { id := 1, shortURL := "http://sh.rt/aaaaaa", shortCode := "aaaaaa",
      originalURL := "https://example.com", clicks := 0, createdAt := 0,
      updatedAt := 0 }
    rfl rfl
  exact h

/-- C4: for a custom code matching `[A-Za-z0-9]{3,20}`, a well-formed URL and
a store not containing the code, `CreateShortURL` succeeds and the returned
short code is the supplied custom code, character for character. -/
theorem custom_code_returned_verbatim {σ : Type} (c : CacheModel σ) (ttl : Nat)
    (r : Mem) (cs : σ) (req : CreateURLRequest) (baseURL : String)
    (ts : Fin 6 → Nat) (now : Nat)
    (hcode : isValidCustomCode req.customAlias = true)
    (hurl : isWellFormedURL req.url = true)
    (hfree : memLookup r req.customAlias = none) :
    ∃ resp, (createShortURL c ttl r cs req baseURL ts now).1 = .ok resp ∧
      resp.shortCode = req.customAlias ∧ resp.originalURL = req.url := by
  have hane : req.customAlias ≠ "" := validCustomCode_ne_empty _ hcode
  have hv : validateCreateReq req = true := by
    simp [validateCreateReq, hurl, hcode]
  have hb : (req.customAlias == "") = false := beq_eq_false_iff_ne.mpr hane
  have hw : (if req.customAlias == "" then generateShortCode ts
             else req.customAlias) = req.customAlias := by
    simp [hb]
  rw [createShortURL_spec c ttl r cs req baseURL ts now req.customAlias hv hw
    hfree hane (wellFormedURL_ne_empty _ hurl)]
  exact ⟨_, rfl, rfl, rfl⟩

theorem custom_code_returned_verbatim_witness :
    ∃ resp, (createShortURL noopCache 600 [] ()
        { url := "https://example.com", customAlias := "myalias" }
        "http://sh.rt" (fun _ => 0) 7).1 = .ok resp ∧
      resp.shortCode = "myalias" ∧ resp.originalURL = "https://example.com" :=
  custom_code_returned_verbatim noopCache 600 [] ()
    { url := "https://example.com", customAlias := "myalias" }
    "http://sh.rt" (fun _ => 0) 7 (by decide) (by decide) rfl

/-- C5: after a successful `IncrementClicks` on a present code, an immediate
`GetURL` returns the post-increment record — both when the read is served
from the (Redis-modelled) cache, which received the updated record before
`IncrementClicks` returned, and when it is served from the repository. -/
theorem increment_then_get_cache_coherent (ttl : Nat) (r : Mem)
    (cs : List (String × URL)) (code : String) (u : URL) (now : Nat)
    (h : memLookup r code = some u) (hsc : u.shortCode = code) :
    (incrementClicks redisCache ttl r cs code now).1
        = .ok { u with clicks := u.clicks + 1, updatedAt := now } ∧
    (getURL redisCache ttl (incrementClicks redisCache ttl r cs code now).2.1
        (incrementClicks redisCache ttl r cs code now).2.2 code).1
        = .ok { u with clicks := u.clicks + 1, updatedAt := now } ∧
    (getURL noopCache ttl (incrementClicks redisCache ttl r cs code now).2.1
        () code).1
        = .ok { u with clicks := u.clicks + 1, updatedAt := now } := by
  have hstep := incrementClicks_ok redisCache ttl r cs code now u h
  refine ⟨by rw [hstep], ?_, ?_⟩
  · rw [hstep]
    dsimp only
    simp only [getURL, redisCache, kvLookup]
    have : ({ u with clicks := u.clicks + 1, updatedAt := now } : URL).shortCode
        = code := hsc
    rw [this, if_pos rfl]
  · rw [hstep]
    dsimp only
    simp only [getURL, noopCache, Mem.findByShortCode,
      memLookup_memUpdate_self r code u _ h]

theorem increment_then_get_cache_coherent_witness :
    (incrementClicks redisCache 600 [("abc123", sampleURL)] [] "abc123" 9).1
        = .ok { sampleURL with clicks := sampleURL.clicks + 1, updatedAt := 9 } ∧
    (getURL redisCache 600
        (incrementClicks redisCache 600 [("abc123", sampleURL)] []
          "abc123" 9).2.1
        (incrementClicks redisCache 600 [("abc123", sampleURL)] []
          "abc123" 9).2.2 "abc123").1
        = .ok { sampleURL with clicks := sampleURL.clicks + 1, updatedAt := 9 } ∧
    (getURL noopCache 600
        (incrementClicks redisCache 600 [("abc123", sampleURL)] []
          "abc123" 9).2.1 () "abc123").1
        = .ok { sampleURL with clicks := sampleURL.clicks + 1, updatedAt := 9 } :=
  increment_then_get_cache_coherent 600 [("abc123", sampleURL)] [] "abc123"
    sampleURL 9 rfl rfl

/-- C6: the service's results and repository effects never depend on cache
errors: `CreateShortURL` and `IncrementClicks` behave identically under any
cache instance and under the no-op cache, and `GetURL` does too whenever the
cache returns no record (as it does, in particular, on every cache error) —
so a cache-layer error can never reach the caller. -/
theorem cache_errors_never_propagate {σ : Type} (c : CacheModel σ) (cs : σ)
    (ttl : Nat) (r : Mem) (req : CreateURLRequest) (baseURL : String)
    (ts : Fin 6 → Nat) (now : Nat) (code : String) (now' : Nat) :
    ((createShortURL c ttl r cs req baseURL ts now).1
        = (createShortURL noopCache ttl r () req baseURL ts now).1
     ∧ (createShortURL c ttl r cs req baseURL ts now).2.1
        = (createShortURL noopCache ttl r () req baseURL ts now).2.1)
    ∧ ((incrementClicks c ttl r cs code now').1
        = (incrementClicks noopCache ttl r () code now').1
     ∧ (incrementClicks c ttl r cs code now').2.1
        = (incrementClicks noopCache ttl r () code now').2.1)
    ∧ ((c.get cs code).1.1 = none →
        (getURL c ttl r cs code).1 = (getURL noopCache ttl r () code).1
        ∧ (getURL c ttl r cs code).2.1
            = (getURL noopCache ttl r () code).2.1) :=
  ⟨createShortURL_cache_independent c ttl r cs req baseURL ts now,
   incrementClicks_cache_independent c ttl r cs code now',
   fun hg => getURL_cache_independent c ttl r cs code hg⟩

theorem cache_errors_never_propagate_witness :
    (getURL failingCache 600 [("abc123", sampleURL)] () "abc123").1
        = (getURL noopCache 600 [("abc123", sampleURL)] () "abc123").1
    ∧ (getURL failingCache 600 [("abc123", sampleURL)] () "abc123").2.1
        = (getURL noopCache 600 [("abc123", sampleURL)] () "abc123").2.1 :=
  (cache_errors_never_propagate failingCache () 600 [("abc123", sampleURL)]
    { url := "https://example.com", customAlias := "" } "http://sh.rt"
    (fun _ => 0) 0 "abc123" 1).2.2 rfl

/-- C7 (counterexample): the sqlite `Create` reports `AlreadyExists` even for
an insert failure that is not a unique-constraint violation — a connection
error is translated to `ErrShortCodeExists` all the same. -/
theorem sqlite_create_connection_error_reported_already_exists :
    sqliteCreate (.error .connectionError) sampleURL = .error .shortCodeExists ∧
      SqlExecError.connectionError ≠ SqlExecError.uniqueViolation :=
  ⟨rfl, by decide⟩

/-- C7 (amended): the sqlite `Create` returns `AlreadyExists` whenever the
insert fails, whatever the cause — unique-constraint violations and
connection errors alike — and succeeds with the last-insert identifier
otherwise. -/
theorem sqlite_create_maps_every_failure_to_already_exists :
    ∀ (e : SqlExecError) (u : URL) (id : Nat),
      sqliteCreate (.error e) u = .error .shortCodeExists ∧
        sqliteCreate (.ok id) u = .ok { u with id := id } :=
  fun _ _ _ => ⟨rfl, rfl⟩

/-- C8: reads (`GetURL`, hence `FindByShortCode` and `Exists`) leave the
store unchanged; `IncrementClicks` touches no record other than the target
and rewrites the target changing only its click count and last-modified
stamp (identifier, short code, original URL and creation time preserved);
and `Create` never modifies an existing record. -/
theorem records_immutable_frame {σ : Type} (c : CacheModel σ) (cs : σ)
    (ttl : Nat) (r : Mem) (code code' : String) (now : Nat) (u v w : URL) :
    (getURL c ttl r cs code).2.1 = r
    ∧ (code' ≠ code →
        memLookup (Mem.incrementClicks r code now).2 code' = memLookup r code')
    ∧ (memLookup r code = some u →
        memLookup (Mem.incrementClicks r code now).2 code
          = some { u with clicks := u.clicks + 1, updatedAt := now })
    ∧ (memLookup r code' = some v →
        memLookup (Mem.create r w).2 code' = some v) := by
  refine ⟨?_, ?_, ?_, ?_⟩
  · unfold getURL
    dsimp only
    split
    · rfl
    · split
      · rfl
      · rfl
  · intro hne
    unfold Mem.incrementClicks
    split
    · rfl
    · exact memLookup_memUpdate_ne r code code' _ hne
  · intro h
    unfold Mem.incrementClicks
    rw [h]
    exact memLookup_memUpdate_self r code u _ h
  · intro h
    unfold Mem.create
    split
    · exact h
    · exact memLookup_append_left r _ code' v h

theorem records_immutable_frame_witness :
    (getURL noopCache 600 [("abc123", sampleURL), ("other00", sampleURL2)] ()
        "abc123").2.1 = [("abc123", sampleURL), ("other00", sampleURL2)]
    ∧ memLookup (Mem.incrementClicks
        [("abc123", sampleURL), ("other00", sampleURL2)] "abc123" 9).2
        "other00"
      = memLookup [("abc123", sampleURL), ("other00", sampleURL2)] "other00"
    ∧ memLookup (Mem.incrementClicks
        [("abc123", sampleURL), ("other00", sampleURL2)] "abc123" 9).2
        "abc123"
      = some { sampleURL with clicks := sampleURL.clicks + 1, updatedAt := 9 }
    ∧ memLookup (Mem.create
        [("abc123", sampleURL), ("other00", sampleURL2)] sampleURL2).2
        "other00"
      = some sampleURL2 := by
  have T := records_immutable_frame noopCache () 600
    [("abc123", sampleURL), ("other00", sampleURL2)] "abc123" "other00" 9
    sampleURL sampleURL2 sampleURL2
  exact ⟨T.1, T.2.1 (by decide), T.2.2.1 rfl, T.2.2.2 rfl⟩

/-- C9: the cache-aware service instantiated with the no-op cache is
observationally equivalent to the cacheless service calling the same
repository directly: for every input and repository state, creation returns
the same view (restricted to the cacheless response's fields) or the same
error and the same repository state, resolution returns the same result and
leaves the store unchanged, and increment returns the same outcome and the
same repository state. -/
theorem noop_cache_service_equals_cacheless (ttl : Nat) (r : Mem)
    (req : CreateURLRequest) (baseURL : String) (ts : Fin 6 → Nat)
    (now : Nat) (code : String) (now' : Nat) :
    ((cachelessCreateShortURL r req baseURL ts now).1
        = ((createShortURL noopCache ttl r () req baseURL ts now).1).map
            URLResponse.toCacheless
     ∧ (cachelessCreateShortURL r req baseURL ts now).2
        = (createShortURL noopCache ttl r () req baseURL ts now).2.1)
    ∧ (cachelessGetURL r code = (getURL noopCache ttl r () code).1
       ∧ (getURL noopCache ttl r () code).2.1 = r)
    ∧ ((cachelessIncrementClicks r code now').1
          = errOf (incrementClicks noopCache ttl r () code now').1
       ∧ (cachelessIncrementClicks r code now').2
          = (incrementClicks noopCache ttl r () code now').2.1) := by
  refine ⟨⟨?_, ?_⟩, ⟨?_, ?_⟩, ?_, ?_⟩
  · unfold cachelessCreateShortURL createShortURL
    repeat' first | rfl | split | dsimp only
  · unfold cachelessCreateShortURL createShortURL
    repeat' first | rfl | split | dsimp only
  · unfold cachelessGetURL getURL
    dsimp only [noopCache]
    split
    · rename_i heq
      exact heq
    · rename_i heq
      exact heq
  · unfold getURL
    dsimp only [noopCache]
    split
    · rfl
    · rfl
  · unfold cachelessIncrementClicks incrementClicks
    split
    · rfl
    · rfl
  · unfold cachelessIncrementClicks incrementClicks
    split
    · rfl
    · rfl

/-- C10: whenever `CreateShortURL` returns an error — validation failure,
empty-field construction failure, an already-existing short code, or a
repository `Create` failure — the repository state is unchanged. -/
theorem failed_create_leaves_repository_unchanged {σ : Type} (c : CacheModel σ)
    (cs : σ) (ttl : Nat) (r : Mem) (req : CreateURLRequest) (baseURL : String)
    (ts : Fin 6 → Nat) (now : Nat) (e : Err)
    (h : (createShortURL c ttl r cs req baseURL ts now).1 = .error e) :
    (createShortURL c ttl r cs req baseURL ts now).2.1 = r := by
  revert h
  unfold createShortURL
  dsimp only
  repeat' first | split | dsimp only
  all_goals intro h
  all_goals first
    | rfl
    | (rename_i heq; exact mem_create_error_state _ _ _ _ heq)
    | simp at h

theorem failed_create_leaves_repository_unchanged_witness :
    (createShortURL noopCache 600 [] () { url := "", customAlias := "" }
      "http://sh.rt" (fun _ => 0) 0).2.1 = ([] : Mem) :=
  failed_create_leaves_repository_unchanged noopCache () 600 []
    { url := "", customAlias := "" } "http://sh.rt" (fun _ => 0) 0
    .validationFailed rfl

end Dove
